import Mathlib

/-!
Verification of the hashtree descriptor parser of `rust/src/descriptor/hashtree.rs`
(libavb Rust bindings).

The parser extracts a borrowed `HashtreeDescriptor` view from the raw big-endian
bytes of one descriptor record.  Byte spans are modelled as `List Nat` (each
element a byte value), borrowed `&str` / `&[u8]` fields as the byte lists they
denote, and the fallible parse as `Except DescriptorError`.

`HashtreeDescriptor::new` itself is translated from the source file.  Its
helpers (`parse_descriptor`, `split_slice`, the `DescriptorError` enum and the
external validator `avb_hashtree_descriptor_validate_and_byteswap`) live in
files of the same repository that are not part of the provided sources; they are
modelled from the specification, as noted on each definition.
-/

/-- Bytes are modelled as natural numbers; wire bytes are `< 256`. -/
abbrev Byte := Nat

/-- Modelled from the spec: the error taxonomy of section 7 for the
`DescriptorError` enum of `descriptor/mod.rs`, which is not part of the
provided sources.  `InvalidHeader` covers both a span shorter than the fixed
header size and a validator rejection (the spec lists them as one kind, and the
in-crate test `new_hashtree_descriptor_too_short_header_fails` expects
`InvalidHeader` for a short span); `InvalidSize` covers body sub-field lengths
exceeding the available bytes; `InvalidText` covers text decoding failures
(missing nul terminator or invalid UTF-8). -/
inductive DescriptorError where
  | InvalidHeader
  | InvalidSize
  | InvalidText
  deriving DecidableEq

/-- Result alias used by the descriptor module. -/
abbrev DescriptorResult (α : Type) := Except DescriptorError α

/-- Decidable equality of results, used to evaluate concrete parses. -/
instance exceptDecEq {ε α : Type} [DecidableEq ε] [DecidableEq α] :
    DecidableEq (Except ε α) := fun x y =>
  match x, y with
  | .ok a, .ok b =>
      if h : a = b then .isTrue (by rw [h]) else .isFalse (by simp [h])
  | .ok _, .error _ => .isFalse (by simp)
  | .error _, .ok _ => .isFalse (by simp)
  | .error e, .error f =>
      if h : e = f then .isTrue (by rw [h]) else .isFalse (by simp [h])

/-- Wire size of the generic `AvbDescriptor` prelude (tag and
`num_bytes_following`, two big-endian u64 fields). -/
def SIZEOF_AVB_DESCRIPTOR : Nat := 16

/-- Wire size of `AvbHashtreeDescriptor` (the packed C struct from libavb):
16 (prelude) + 4 + 8 + 8 + 8 + 4 + 4 + 4 + 8 + 8 + 32 + 4 + 4 + 4 + 4 + 60
(reserved) = 180 bytes. -/
def SIZEOF_AVB_HASHTREE_DESCRIPTOR : Nat := 180

/-- The descriptor tag value for hashtree descriptors. -/
def AVB_DESCRIPTOR_TAG_HASHTREE : Nat := 1

/-- Big-endian integer value of the `n` bytes of `data` starting at offset
`off`. -/
def beBytes (data : List Byte) (off n : Nat) : Nat :=
  ((data.drop off).take n).foldl (fun a b => a * 256 + b) 0

/-- Host-order `AvbHashtreeDescriptor` header.  The two fields of the embedded
`parent_descriptor` (`AvbDescriptor`) are flattened into `tag` and
`num_bytes_following`.  `hash_algorithm` is the raw 32-byte field (byte-order
agnostic); the 60 reserved bytes carry no information and are omitted. -/
structure AvbHashtreeDescriptor where
  tag : Nat
  num_bytes_following : Nat
  dm_verity_version : Nat
  image_size : Nat
  tree_offset : Nat
  tree_size : Nat
  data_block_size : Nat
  hash_block_size : Nat
  fec_num_roots : Nat
  fec_offset : Nat
  fec_size : Nat
  hash_algorithm : List Byte
  partition_name_len : Nat
  salt_len : Nat
  root_digest_len : Nat
  flags : Nat
  deriving DecidableEq

/-- The raw bytes of the 32-byte `hash_algorithm` field of a raw (big-endian)
`AvbHashtreeDescriptor` header: bytes 72..104 of the packed struct. -/
def rawHashAlgorithmField (raw : List Byte) : List Byte :=
  (raw.drop 72).take 32

/-- Decode the packed big-endian `AvbHashtreeDescriptor` wire layout into a
host-order header record (field offsets follow the packed C struct). -/
def decodeHashtreeHeader (raw : List Byte) : AvbHashtreeDescriptor :=
  { tag := beBytes raw 0 8
    num_bytes_following := beBytes raw 8 8
    dm_verity_version := beBytes raw 16 4
    image_size := beBytes raw 20 8
    tree_offset := beBytes raw 28 8
    tree_size := beBytes raw 36 8
    data_block_size := beBytes raw 44 4
    hash_block_size := beBytes raw 48 4
    fec_num_roots := beBytes raw 52 4
    fec_offset := beBytes raw 56 8
    fec_size := beBytes raw 64 8
    hash_algorithm := rawHashAlgorithmField raw
    partition_name_len := beBytes raw 104 4
    salt_len := beBytes raw 108 4
    root_digest_len := beBytes raw 112 4
    flags := beBytes raw 116 4 }

/-- Modelled from the spec: `avb_hashtree_descriptor_validate_and_byteswap`,
the externally supplied validation function (spec section 6) provided by the C
library, not part of the provided sources.  It byteswaps the big-endian integer
fields to host order (here: decodes them), checks the descriptor tag, and
checks the spec's section 3 invariant that the declared sub-field lengths,
summed with the header size, do not exceed the total bytes the descriptor
declares (`SIZEOF_AVB_DESCRIPTOR + num_bytes_following`).  `none` means the
validator returned false. -/
def avb_hashtree_descriptor_validate_and_byteswap
    (raw : List Byte) : Option AvbHashtreeDescriptor :=
  let h := decodeHashtreeHeader raw
  if h.tag = AVB_DESCRIPTOR_TAG_HASHTREE ∧
      SIZEOF_AVB_HASHTREE_DESCRIPTOR - SIZEOF_AVB_DESCRIPTOR
        + h.partition_name_len + h.salt_len + h.root_digest_len
        ≤ h.num_bytes_following then
    some h
  else
    none

/-- A parsed descriptor: the raw big-endian header bytes, the validated
host-order header, and the body (the bytes following the fixed header). -/
structure ParsedDescriptor where
  raw_header : List Byte
  header : AvbHashtreeDescriptor
  body : List Byte
  deriving DecidableEq

/-- Modelled from the spec: `parse_descriptor` (spec section 4.1) from
`descriptor/util.rs`, which is not part of the provided sources.  Fails with
`InvalidHeader` when the span is shorter than the fixed header wire size, or
when the bound validation function rejects the header; otherwise returns the
raw header snapshot, the validated host-order header, and the body.  The body
is all bytes following the fixed header: the in-crate test
`new_hashtree_descriptor_too_short_contents_fails` ("The last 2 bytes are
padding, so we need to drop 3 bytes to trigger an error") documents that
trailing padding bytes may be absent without error, so no check against
`num_bytes_following` is performed on the span length. -/
def parse_descriptor (data : List Byte) : DescriptorResult ParsedDescriptor :=
  if data.length < SIZEOF_AVB_HASHTREE_DESCRIPTOR then
    .error .InvalidHeader
  else
    match avb_hashtree_descriptor_validate_and_byteswap
        (data.take SIZEOF_AVB_HASHTREE_DESCRIPTOR) with
    | none => .error .InvalidHeader
    | some h =>
        .ok { raw_header := data.take SIZEOF_AVB_HASHTREE_DESCRIPTOR
              header := h
              body := data.drop SIZEOF_AVB_HASHTREE_DESCRIPTOR }

/-- Modelled from the spec: `split_slice` (spec section 4.2) from
`descriptor/util.rs`, which is not part of the provided sources.  The
bounds-checked splitter: the first `size` bytes and the remainder, or
`InvalidSize` when `size` exceeds the available bytes.  It never reads out of
bounds. -/
def split_slice (data : List Byte) (size : Nat) :
    DescriptorResult (List Byte × List Byte) :=
  if data.length < size then
    .error .InvalidSize
  else
    .ok (data.take size, data.drop size)

/-- `CStr::from_bytes_until_nul`: the bytes strictly before the first nul
byte, or `none` when the slice contains no nul. -/
def cstr_from_bytes_until_nul : List Byte → Option (List Byte)
  | [] => none
  | b :: rest =>
      if b = 0 then some []
      else (cstr_from_bytes_until_nul rest).map (fun p => b :: p)

/-- A UTF-8 continuation byte (`0x80..0xBF`). -/
def utf8Cont (c : Byte) : Bool :=
  0x80 ≤ c && c ≤ 0xBF

/-- UTF-8 validity of a byte list, with the exact checks of Rust
`core::str::from_utf8`: ASCII, 2/3/4-byte sequences with range-restricted
first continuation bytes rejecting overlong encodings, surrogates
(`0xED` followed by `0xA0..`), and code points above `0x10FFFF`. -/
def utf8Valid : List Byte → Bool
  | [] => true
  | b :: rest =>
      if b < 0x80 then
        utf8Valid rest
      else if b < 0xC2 then
        false
      else if b < 0xE0 then
        match rest with
        | c1 :: rest2 => utf8Cont c1 && utf8Valid rest2
        | [] => false
      else if b < 0xF0 then
        match rest with
        | c1 :: c2 :: rest3 =>
            (if b = 0xE0 then decide (0xA0 ≤ c1 ∧ c1 ≤ 0xBF)
             else if b = 0xED then decide (0x80 ≤ c1 ∧ c1 ≤ 0x9F)
             else utf8Cont c1) && utf8Cont c2 && utf8Valid rest3
        | _ => false
      else if b < 0xF5 then
        match rest with
        | c1 :: c2 :: c3 :: rest4 =>
            (if b = 0xF0 then decide (0x90 ≤ c1 ∧ c1 ≤ 0xBF)
             else if b = 0xF4 then decide (0x80 ≤ c1 ∧ c1 ≤ 0x8F)
             else utf8Cont c1) && utf8Cont c2 && utf8Cont c3 && utf8Valid rest4
        | _ => false
      else
        false

/-- Rust `core::str::from_utf8`, with the failure already mapped (as by the
`?` conversion in `HashtreeDescriptor::new`) to the text-decoding error kind.
On success the `&str` is the same bytes, so it is returned unchanged. -/
def from_utf8 (bytes : List Byte) : DescriptorResult (List Byte) :=
  if utf8Valid bytes then .ok bytes else .error .InvalidText

/-- The borrowed hashtree descriptor view (`HashtreeDescriptor<'a>` of
`hashtree.rs`, lines 29-71).  The `&str` fields are represented by their
(UTF-8 valid) bytes; `flags` is the opaque `u32` bit set. -/
structure HashtreeDescriptor where
  dm_verity_version : Nat
  image_size : Nat
  tree_offset : Nat
  tree_size : Nat
  data_block_size : Nat
  hash_block_size : Nat
  fec_num_roots : Nat
  fec_offset : Nat
  fec_size : Nat
  hash_algorithm : List Byte
  flags : Nat
  partition_name : List Byte
  salt : List Byte
  root_digest : List Byte
  deriving DecidableEq

/-- `HashtreeDescriptor::new` (`hashtree.rs`, lines 88-119): extract a
`HashtreeDescriptor` view from the given descriptor contents (header + name +
salt + digest, in raw big-endian format).  The `?` early returns of the source
are the error branches of the matches, in source order: the generic parse,
the three body splits, the nul-terminated hash-algorithm extraction from the
raw header, its UTF-8 decoding, and the partition-name UTF-8 decoding. -/
def HashtreeDescriptor.new (contents : List Byte) :
    DescriptorResult HashtreeDescriptor :=
  match parse_descriptor contents with
  | .error e => .error e
  | .ok descriptor =>
    match split_slice descriptor.body descriptor.header.partition_name_len with
    | .error e => .error e
    | .ok (partition_name, rem1) =>
      match split_slice rem1 descriptor.header.salt_len with
      | .error e => .error e
      | .ok (salt, rem2) =>
        match split_slice rem2 descriptor.header.root_digest_len with
        | .error e => .error e
        | .ok (root_digest, _) =>
          match cstr_from_bytes_until_nul
              (rawHashAlgorithmField descriptor.raw_header) with
          | none => .error .InvalidText
          | some cbytes =>
            match from_utf8 cbytes with
            | .error e => .error e
            | .ok hash_algorithm =>
              match from_utf8 partition_name with
              | .error e => .error e
              | .ok pname =>
                .ok { dm_verity_version := descriptor.header.dm_verity_version
                      image_size := descriptor.header.image_size
                      tree_offset := descriptor.header.tree_offset
                      tree_size := descriptor.header.tree_size
                      data_block_size := descriptor.header.data_block_size
                      hash_block_size := descriptor.header.hash_block_size
                      fec_num_roots := descriptor.header.fec_num_roots
                      fec_offset := descriptor.header.fec_offset
                      fec_size := descriptor.header.fec_size
                      hash_algorithm := hash_algorithm
                      flags := descriptor.header.flags
                      partition_name := pname
                      salt := salt
                      root_digest := root_digest }

/-- The test vector from `hashtree.rs` (lines 130-147): a valid hashtree
descriptor in raw big-endian format (240 bytes). -/
def TEST_HASHTREE_DESCRIPTOR : List Byte := [
  0x00, 0x00, 0x00, 0x00, 0x00, 0x00, 0x00, 0x01, 0x00, 0x00, 0x00, 0x00, 0x00, 0x00, 0x00,
  0xE0, 0x00, 0x00, 0x00, 0x01, 0x00, 0x00, 0x00, 0x00, 0x00, 0x00, 0x40, 0x00, 0x00, 0x00,
  0x00, 0x00, 0x00, 0x00, 0x40, 0x00, 0x00, 0x00, 0x00, 0x00, 0x00, 0x00, 0x10, 0x00, 0x00,
  0x00, 0x10, 0x00, 0x00, 0x00, 0x10, 0x00, 0x00, 0x00, 0x00, 0x00, 0x00, 0x00, 0x00, 0x00,
  0x00, 0x00, 0x00, 0x00, 0x00, 0x00, 0x00, 0x00, 0x00, 0x00, 0x00, 0x00, 0x73, 0x68, 0x61,
  0x31, 0x00, 0x00, 0x00, 0x00, 0x00, 0x00, 0x00, 0x00, 0x00, 0x00, 0x00, 0x00, 0x00, 0x00,
  0x00, 0x00, 0x00, 0x00, 0x00, 0x00, 0x00, 0x00, 0x00, 0x00, 0x00, 0x00, 0x00, 0x00, 0x00,
  0x00, 0x00, 0x12, 0x00, 0x00, 0x00, 0x14, 0x00, 0x00, 0x00, 0x14, 0x00, 0x00, 0x00, 0x00,
  0x00, 0x00, 0x00, 0x00, 0x00, 0x00, 0x00, 0x00, 0x00, 0x00, 0x00, 0x00, 0x00, 0x00, 0x00,
  0x00, 0x00, 0x00, 0x00, 0x00, 0x00, 0x00, 0x00, 0x00, 0x00, 0x00, 0x00, 0x00, 0x00, 0x00,
  0x00, 0x00, 0x00, 0x00, 0x00, 0x00, 0x00, 0x00, 0x00, 0x00, 0x00, 0x00, 0x00, 0x00, 0x00,
  0x00, 0x00, 0x00, 0x00, 0x00, 0x00, 0x00, 0x00, 0x00, 0x00, 0x00, 0x00, 0x00, 0x00, 0x00,
  0x74, 0x65, 0x73, 0x74, 0x5F, 0x70, 0x61, 0x72, 0x74, 0x5F, 0x68, 0x61, 0x73, 0x68, 0x74,
  0x72, 0x65, 0x65, 0x99, 0xCE, 0xC4, 0x29, 0x60, 0x61, 0xCF, 0xBD, 0xE7, 0xD2, 0x17, 0xE2,
  0x88, 0x99, 0x05, 0x39, 0xAB, 0x70, 0x6D, 0xD0, 0x4C, 0x77, 0x76, 0xF8, 0xFD, 0xD2, 0x2B,
  0xF4, 0xC4, 0x7F, 0x31, 0x1B, 0x7B, 0x7B, 0xA5, 0xEF, 0x42, 0x8D, 0x7B, 0xE8, 0x00, 0x00]

/-- The validated header a span decodes to (the header `parse_descriptor`
returns when it succeeds). -/
def headerOf (c : List Byte) : AvbHashtreeDescriptor :=
  decodeHashtreeHeader (c.take SIZEOF_AVB_HASHTREE_DESCRIPTOR)

/-- The condition under which the validator accepts a raw header. -/
def validatorCond (raw : List Byte) : Prop :=
  (decodeHashtreeHeader raw).tag = AVB_DESCRIPTOR_TAG_HASHTREE ∧
  SIZEOF_AVB_HASHTREE_DESCRIPTOR - SIZEOF_AVB_DESCRIPTOR
    + (decodeHashtreeHeader raw).partition_name_len
    + (decodeHashtreeHeader raw).salt_len
    + (decodeHashtreeHeader raw).root_digest_len
    ≤ (decodeHashtreeHeader raw).num_bytes_following

instance (raw : List Byte) : Decidable (validatorCond raw) := by
  unfold validatorCond
  infer_instance

/-- The descriptor body of a span: the bytes after the fixed header. -/
def bodyOf (c : List Byte) : List Byte :=
  c.drop SIZEOF_AVB_HASHTREE_DESCRIPTOR

/-- Total length of the three declared variable-length sub-fields. -/
def subFieldsLen (c : List Byte) : Nat :=
  (headerOf c).partition_name_len + (headerOf c).salt_len
    + (headerOf c).root_digest_len

/-- The nul-terminated hash-algorithm bytes read from the raw header
snapshot of a span. -/
def hashAlgBytes (c : List Byte) : Option (List Byte) :=
  cstr_from_bytes_until_nul
    (rawHashAlgorithmField (c.take SIZEOF_AVB_HASHTREE_DESCRIPTOR))

/-- Whether the hash-algorithm field decodes: a nul terminator exists and the
bytes before it are valid UTF-8. -/
def hashAlgOk (c : List Byte) : Bool :=
  match hashAlgBytes c with
  | none => false
  | some p => utf8Valid p

/-- The view `HashtreeDescriptor::new` produces on success, written directly
as functions of the input span. -/
def expectedView (c : List Byte) : HashtreeDescriptor :=
  { dm_verity_version := (headerOf c).dm_verity_version
    image_size := (headerOf c).image_size
    tree_offset := (headerOf c).tree_offset
    tree_size := (headerOf c).tree_size
    data_block_size := (headerOf c).data_block_size
    hash_block_size := (headerOf c).hash_block_size
    fec_num_roots := (headerOf c).fec_num_roots
    fec_offset := (headerOf c).fec_offset
    fec_size := (headerOf c).fec_size
    hash_algorithm := (hashAlgBytes c).getD []
    flags := (headerOf c).flags
    partition_name := (bodyOf c).take (headerOf c).partition_name_len
    salt := ((bodyOf c).drop (headerOf c).partition_name_len).take
      (headerOf c).salt_len
    root_digest :=
      (((bodyOf c).drop (headerOf c).partition_name_len).drop
        (headerOf c).salt_len).take (headerOf c).root_digest_len }

/-- The `ParsedDescriptor` the generic parser returns for a span it accepts. -/
def parsedOf (c : List Byte) : ParsedDescriptor :=
  { raw_header := c.take SIZEOF_AVB_HASHTREE_DESCRIPTOR
    header := headerOf c
    body := c.drop SIZEOF_AVB_HASHTREE_DESCRIPTOR }

/-- The view the test vector parses to (all values read off the wire bytes). -/
def TEST_HASHTREE_VIEW : HashtreeDescriptor :=
  { dm_verity_version := 1
    image_size := 0x4000
    tree_offset := 0x4000
    tree_size := 0x1000
    data_block_size := 0x1000
    hash_block_size := 0x1000
    fec_num_roots := 0
    fec_offset := 0
    fec_size := 0
    hash_algorithm := [0x73, 0x68, 0x61, 0x31]
    flags := 0
    partition_name := [0x74, 0x65, 0x73, 0x74, 0x5F, 0x70, 0x61, 0x72, 0x74, 0x5F,
                       0x68, 0x61, 0x73, 0x68, 0x74, 0x72, 0x65, 0x65]
    salt := [0x99, 0xCE, 0xC4, 0x29, 0x60, 0x61, 0xCF, 0xBD, 0xE7, 0xD2,
             0x17, 0xE2, 0x88, 0x99, 0x05, 0x39, 0xAB, 0x70, 0x6D, 0xD0]
    root_digest := [0x4C, 0x77, 0x76, 0xF8, 0xFD, 0xD2, 0x2B, 0xF4, 0xC4, 0x7F,
                    0x31, 0x1B, 0x7B, 0x7B, 0xA5, 0xEF, 0x42, 0x8D, 0x7B, 0xE8] }

/-- The test vector with a nul byte inside the partition name (byte 189, the
second underscore of `test_part_hashtree`). -/
def TEST_EMBEDDED_NUL_DESCRIPTOR : List Byte :=
  TEST_HASHTREE_DESCRIPTOR.set 189 0

/-- The test vector with the 32-byte hash-algorithm field completely filled
with non-nul bytes (`sha1` followed by 28 `a` bytes): no nul terminator. -/
def TEST_NO_NUL_ALG_DESCRIPTOR : List Byte :=
  TEST_HASHTREE_DESCRIPTOR.take 76 ++ List.replicate 28 0x61 ++
    TEST_HASHTREE_DESCRIPTOR.drop 104

/-- The test vector with the first hash-algorithm byte replaced by `0xFF`,
making the bytes before the nul invalid UTF-8. -/
def TEST_BAD_ALG_UTF8_DESCRIPTOR : List Byte :=
  TEST_HASHTREE_DESCRIPTOR.set 72 0xFF

/-- The test vector with a partition-name byte replaced by `0xFF`, making the
partition name invalid UTF-8. -/
def TEST_BAD_NAME_UTF8_DESCRIPTOR : List Byte :=
  TEST_HASHTREE_DESCRIPTOR.set 185 0xFF

set_option maxRecDepth 100000

/-- The validator accepts exactly when `validatorCond` holds (pass case). -/
theorem validator_eq_some (raw : List Byte) (h : validatorCond raw) :
    avb_hashtree_descriptor_validate_and_byteswap raw =
      some (decodeHashtreeHeader raw) := by
  unfold avb_hashtree_descriptor_validate_and_byteswap
  exact if_pos h

/-- The validator rejects exactly when `validatorCond` fails. -/
theorem validator_eq_none (raw : List Byte) (h : ¬ validatorCond raw) :
    avb_hashtree_descriptor_validate_and_byteswap raw = none := by
  unfold avb_hashtree_descriptor_validate_and_byteswap
  exact if_neg h

/-- Inversion of a successful validation. -/
theorem validator_some_elim (raw : List Byte) (h : AvbHashtreeDescriptor)
    (hv : avb_hashtree_descriptor_validate_and_byteswap raw = some h) :
    validatorCond raw ∧ h = decodeHashtreeHeader raw := by
  by_cases hc : validatorCond raw
  · rw [validator_eq_some raw hc] at hv
    exact ⟨hc, (Option.some.injEq _ _ ▸ hv).symm⟩
  · rw [validator_eq_none raw hc] at hv
    exact absurd hv (by simp)

/-- `split_slice` succeeds and returns take/drop when the request fits. -/
theorem split_slice_ok (data : List Byte) (n : Nat) (h : n ≤ data.length) :
    split_slice data n = .ok (data.take n, data.drop n) := by
  unfold split_slice
  rw [if_neg (by omega)]

/-- `split_slice` fails with `InvalidSize` when the request does not fit. -/
theorem split_slice_err (data : List Byte) (n : Nat) (h : data.length < n) :
    split_slice data n = .error .InvalidSize := by
  unfold split_slice
  rw [if_pos h]

/-- A span shorter than the header wire size fails the generic parse. -/
theorem parse_err_short (c : List Byte)
    (h : c.length < SIZEOF_AVB_HASHTREE_DESCRIPTOR) :
    parse_descriptor c = .error .InvalidHeader := by
  unfold parse_descriptor
  rw [if_pos h]

/-- A validator rejection fails the generic parse. -/
theorem parse_err_invalid (c : List Byte)
    (h : ¬ validatorCond (c.take SIZEOF_AVB_HASHTREE_DESCRIPTOR)) :
    parse_descriptor c = .error .InvalidHeader := by
  unfold parse_descriptor
  rw [validator_eq_none _ h]
  split <;> rfl

/-- The generic parse succeeds on a long-enough span the validator accepts. -/
theorem parse_ok_intro (c : List Byte)
    (h1 : SIZEOF_AVB_HASHTREE_DESCRIPTOR ≤ c.length)
    (h2 : validatorCond (c.take SIZEOF_AVB_HASHTREE_DESCRIPTOR)) :
    parse_descriptor c = .ok
      { raw_header := c.take SIZEOF_AVB_HASHTREE_DESCRIPTOR
        header := headerOf c
        body := c.drop SIZEOF_AVB_HASHTREE_DESCRIPTOR } := by
  unfold parse_descriptor
  rw [if_neg (by omega), validator_eq_some _ h2]
  rfl

/-- Inversion of a successful generic parse. -/
theorem parse_ok_elim (c : List Byte) (d : ParsedDescriptor)
    (h : parse_descriptor c = .ok d) :
    SIZEOF_AVB_HASHTREE_DESCRIPTOR ≤ c.length ∧
    validatorCond (c.take SIZEOF_AVB_HASHTREE_DESCRIPTOR) ∧
    d = { raw_header := c.take SIZEOF_AVB_HASHTREE_DESCRIPTOR
          header := headerOf c
          body := c.drop SIZEOF_AVB_HASHTREE_DESCRIPTOR } := by
  by_cases h1 : c.length < SIZEOF_AVB_HASHTREE_DESCRIPTOR
  · rw [parse_err_short c h1] at h
    exact absurd h (by simp)
  · by_cases h2 : validatorCond (c.take SIZEOF_AVB_HASHTREE_DESCRIPTOR)
    · rw [parse_ok_intro c (by omega) h2] at h
      injection h with h3
      exact ⟨by omega, h2, h3.symm⟩
    · rw [parse_err_invalid c h2] at h
      exact absurd h (by simp)

/-- `cstr_from_bytes_until_nul` fails exactly when the slice has no nul. -/
theorem cstr_eq_none_iff (l : List Byte) :
    cstr_from_bytes_until_nul l = none ↔ 0 ∉ l := by
  induction l with
  | nil => simp [cstr_from_bytes_until_nul]
  | cons b rest ih =>
    by_cases hb : b = 0
    · simp [cstr_from_bytes_until_nul, hb]
    · have hb' : ¬ (0 = b) := fun hc => hb hc.symm
      simp [cstr_from_bytes_until_nul, hb, hb', ih]

/-- A successful `cstr_from_bytes_until_nul` returns the longest nul-free
strict prefix: the bytes before the first nul. -/
theorem cstr_some_elim (l p : List Byte)
    (h : cstr_from_bytes_until_nul l = some p) :
    p = l.takeWhile (fun b => b != 0) ∧ 0 ∉ p ∧ p.length < l.length := by
  induction l generalizing p with
  | nil => exact absurd h (by simp [cstr_from_bytes_until_nul])
  | cons b rest ih =>
    by_cases hb : b = 0
    · simp [cstr_from_bytes_until_nul, hb] at h
      subst h
      have hbf : (b != 0) = false := by simp [hb]
      refine ⟨?_, by simp, by simp⟩
      simp [List.takeWhile_cons, hbf]
    · simp [cstr_from_bytes_until_nul, hb] at h
      rcases h with ⟨q, hq, hpq⟩
      rcases ih q hq with ⟨h1, h2, h3⟩
      subst hpq
      have hbt : (b != 0) = true := by simp [hb]
      refine ⟨?_, ?_, ?_⟩
      · simp [List.takeWhile_cons, hbt, h1]
      · simp [h2]
        exact fun hc => hb hc.symm
      · simpa using Nat.succ_lt_succ h3

/-- `new` fails with `InvalidHeader` on a span shorter than the header. -/
theorem new_err_short (c : List Byte)
    (h : c.length < SIZEOF_AVB_HASHTREE_DESCRIPTOR) :
    HashtreeDescriptor.new c = .error .InvalidHeader := by
  unfold HashtreeDescriptor.new
  rw [parse_err_short c h]

/-- `new` fails with `InvalidHeader` when the validator rejects the header. -/
theorem new_err_invalid_header (c : List Byte)
    (h : ¬ validatorCond (c.take SIZEOF_AVB_HASHTREE_DESCRIPTOR)) :
    HashtreeDescriptor.new c = .error .InvalidHeader := by
  unfold HashtreeDescriptor.new
  rw [parse_err_invalid c h]

/-- `new` fails with `InvalidSize` when the body cannot hold the declared
sub-fields. -/
theorem new_err_size (c : List Byte)
    (h1 : SIZEOF_AVB_HASHTREE_DESCRIPTOR ≤ c.length)
    (h2 : validatorCond (c.take SIZEOF_AVB_HASHTREE_DESCRIPTOR))
    (h3 : c.length < SIZEOF_AVB_HASHTREE_DESCRIPTOR + subFieldsLen c) :
    HashtreeDescriptor.new c = .error .InvalidSize := by
  have hsub : c.length < SIZEOF_AVB_HASHTREE_DESCRIPTOR + ((headerOf c).partition_name_len
      + (headerOf c).salt_len + (headerOf c).root_digest_len) := by
    simpa [subFieldsLen] using h3
  by_cases hn : (c.drop SIZEOF_AVB_HASHTREE_DESCRIPTOR).length < (headerOf c).partition_name_len
  · simp only [HashtreeDescriptor.new, parse_ok_intro c h1 h2, split_slice_err _ _ hn]
  · push_neg at hn
    by_cases hs : ((c.drop SIZEOF_AVB_HASHTREE_DESCRIPTOR).drop
        (headerOf c).partition_name_len).length < (headerOf c).salt_len
    · simp only [HashtreeDescriptor.new, parse_ok_intro c h1 h2, split_slice_ok _ _ hn,
        split_slice_err _ _ hs]
    · push_neg at hs
      have l1 : (c.drop SIZEOF_AVB_HASHTREE_DESCRIPTOR).length =
          c.length - SIZEOF_AVB_HASHTREE_DESCRIPTOR := List.length_drop _ _
      have l2 : ((c.drop SIZEOF_AVB_HASHTREE_DESCRIPTOR).drop
          (headerOf c).partition_name_len).length =
          c.length - SIZEOF_AVB_HASHTREE_DESCRIPTOR - (headerOf c).partition_name_len := by
        rw [List.length_drop, l1]
      have hd : (((c.drop SIZEOF_AVB_HASHTREE_DESCRIPTOR).drop
          (headerOf c).partition_name_len).drop (headerOf c).salt_len).length <
          (headerOf c).root_digest_len := by
        rw [List.length_drop, l2]
        rw [l1] at hn
        rw [l2] at hs
        omega
      simp only [HashtreeDescriptor.new, parse_ok_intro c h1 h2, split_slice_ok _ _ hn,
        split_slice_ok _ _ hs, split_slice_err _ _ hd]

/-- `new` succeeds, with the `expectedView`, when the header fits and
validates, the body holds the declared sub-fields, and both text fields
decode. -/
theorem new_ok_intro (c : List Byte)
    (h1 : SIZEOF_AVB_HASHTREE_DESCRIPTOR ≤ c.length)
    (h2 : validatorCond (c.take SIZEOF_AVB_HASHTREE_DESCRIPTOR))
    (h3 : SIZEOF_AVB_HASHTREE_DESCRIPTOR + subFieldsLen c ≤ c.length)
    (p : List Byte) (hp : hashAlgBytes c = some p) (hpu : utf8Valid p = true)
    (hnm : utf8Valid ((c.drop SIZEOF_AVB_HASHTREE_DESCRIPTOR).take
      (headerOf c).partition_name_len) = true) :
    HashtreeDescriptor.new c = .ok (expectedView c) := by
  have hsub : SIZEOF_AVB_HASHTREE_DESCRIPTOR + ((headerOf c).partition_name_len
      + (headerOf c).salt_len + (headerOf c).root_digest_len) ≤ c.length := by
    simpa [subFieldsLen] using h3
  have l1 : (c.drop SIZEOF_AVB_HASHTREE_DESCRIPTOR).length =
      c.length - SIZEOF_AVB_HASHTREE_DESCRIPTOR := List.length_drop _ _
  have l2 : ((c.drop SIZEOF_AVB_HASHTREE_DESCRIPTOR).drop
      (headerOf c).partition_name_len).length =
      c.length - SIZEOF_AVB_HASHTREE_DESCRIPTOR - (headerOf c).partition_name_len := by
    rw [List.length_drop, l1]
  have hn : (headerOf c).partition_name_len ≤
      (c.drop SIZEOF_AVB_HASHTREE_DESCRIPTOR).length := by omega
  have hs : (headerOf c).salt_len ≤ ((c.drop SIZEOF_AVB_HASHTREE_DESCRIPTOR).drop
      (headerOf c).partition_name_len).length := by omega
  have hd : (headerOf c).root_digest_len ≤ (((c.drop SIZEOF_AVB_HASHTREE_DESCRIPTOR).drop
      (headerOf c).partition_name_len).drop (headerOf c).salt_len).length := by
    rw [List.length_drop, l2]
    omega
  have hp' : cstr_from_bytes_until_nul
      (rawHashAlgorithmField (c.take SIZEOF_AVB_HASHTREE_DESCRIPTOR)) = some p := by
    simpa [hashAlgBytes] using hp
  simp only [HashtreeDescriptor.new, parse_ok_intro c h1 h2, split_slice_ok _ _ hn,
    split_slice_ok _ _ hs, split_slice_ok _ _ hd, hp', from_utf8, hpu, if_true, hnm]
  simp [expectedView, bodyOf, hashAlgBytes, hp']

theorem new_err_no_nul (c : List Byte)
    (h1 : SIZEOF_AVB_HASHTREE_DESCRIPTOR ≤ c.length)
    (h2 : validatorCond (c.take SIZEOF_AVB_HASHTREE_DESCRIPTOR))
    (h3 : SIZEOF_AVB_HASHTREE_DESCRIPTOR + subFieldsLen c ≤ c.length)
    (hp : hashAlgBytes c = none) :
    HashtreeDescriptor.new c = .error .InvalidText := by
  have hsub : SIZEOF_AVB_HASHTREE_DESCRIPTOR + ((headerOf c).partition_name_len
      + (headerOf c).salt_len + (headerOf c).root_digest_len) ≤ c.length := by
    simpa [subFieldsLen] using h3
  have l1 : (c.drop SIZEOF_AVB_HASHTREE_DESCRIPTOR).length =
      c.length - SIZEOF_AVB_HASHTREE_DESCRIPTOR := List.length_drop _ _
  have l2 : ((c.drop SIZEOF_AVB_HASHTREE_DESCRIPTOR).drop
      (headerOf c).partition_name_len).length =
      c.length - SIZEOF_AVB_HASHTREE_DESCRIPTOR - (headerOf c).partition_name_len := by
    rw [List.length_drop, l1]
  have hn : (headerOf c).partition_name_len ≤
      (c.drop SIZEOF_AVB_HASHTREE_DESCRIPTOR).length := by omega
  have hs : (headerOf c).salt_len ≤ ((c.drop SIZEOF_AVB_HASHTREE_DESCRIPTOR).drop
      (headerOf c).partition_name_len).length := by omega
  have hd : (headerOf c).root_digest_len ≤ (((c.drop SIZEOF_AVB_HASHTREE_DESCRIPTOR).drop
      (headerOf c).partition_name_len).drop (headerOf c).salt_len).length := by
    rw [List.length_drop, l2]
    omega
  have hp' : cstr_from_bytes_until_nul
      (rawHashAlgorithmField (c.take SIZEOF_AVB_HASHTREE_DESCRIPTOR)) = none := by
    simpa [hashAlgBytes] using hp
  simp only [HashtreeDescriptor.new, parse_ok_intro c h1 h2, split_slice_ok _ _ hn,
    split_slice_ok _ _ hs, split_slice_ok _ _ hd, hp']

theorem new_err_alg_utf8 (c : List Byte)
    (h1 : SIZEOF_AVB_HASHTREE_DESCRIPTOR ≤ c.length)
    (h2 : validatorCond (c.take SIZEOF_AVB_HASHTREE_DESCRIPTOR))
    (h3 : SIZEOF_AVB_HASHTREE_DESCRIPTOR + subFieldsLen c ≤ c.length)
    (p : List Byte) (hp : hashAlgBytes c = some p) (hpu : utf8Valid p = false) :
    HashtreeDescriptor.new c = .error .InvalidText := by
  have hsub : SIZEOF_AVB_HASHTREE_DESCRIPTOR + ((headerOf c).partition_name_len
      + (headerOf c).salt_len + (headerOf c).root_digest_len) ≤ c.length := by
    simpa [subFieldsLen] using h3
  have l1 : (c.drop SIZEOF_AVB_HASHTREE_DESCRIPTOR).length =
      c.length - SIZEOF_AVB_HASHTREE_DESCRIPTOR := List.length_drop _ _
  have l2 : ((c.drop SIZEOF_AVB_HASHTREE_DESCRIPTOR).drop
      (headerOf c).partition_name_len).length =
      c.length - SIZEOF_AVB_HASHTREE_DESCRIPTOR - (headerOf c).partition_name_len := by
    rw [List.length_drop, l1]
  have hn : (headerOf c).partition_name_len ≤
      (c.drop SIZEOF_AVB_HASHTREE_DESCRIPTOR).length := by omega
  have hs : (headerOf c).salt_len ≤ ((c.drop SIZEOF_AVB_HASHTREE_DESCRIPTOR).drop
      (headerOf c).partition_name_len).length := by omega
  have hd : (headerOf c).root_digest_len ≤ (((c.drop SIZEOF_AVB_HASHTREE_DESCRIPTOR).drop
      (headerOf c).partition_name_len).drop (headerOf c).salt_len).length := by
    rw [List.length_drop, l2]
    omega
  have hp' : cstr_from_bytes_until_nul
      (rawHashAlgorithmField (c.take SIZEOF_AVB_HASHTREE_DESCRIPTOR)) = some p := by
    simpa [hashAlgBytes] using hp
  simp only [HashtreeDescriptor.new, parse_ok_intro c h1 h2, split_slice_ok _ _ hn,
    split_slice_ok _ _ hs, split_slice_ok _ _ hd, hp', from_utf8, hpu]
  simp

theorem new_err_name_utf8 (c : List Byte)
    (h1 : SIZEOF_AVB_HASHTREE_DESCRIPTOR ≤ c.length)
    (h2 : validatorCond (c.take SIZEOF_AVB_HASHTREE_DESCRIPTOR))
    (h3 : SIZEOF_AVB_HASHTREE_DESCRIPTOR + subFieldsLen c ≤ c.length)
    (p : List Byte) (hp : hashAlgBytes c = some p) (hpu : utf8Valid p = true)
    (hnm : utf8Valid ((c.drop SIZEOF_AVB_HASHTREE_DESCRIPTOR).take
      (headerOf c).partition_name_len) = false) :
    HashtreeDescriptor.new c = .error .InvalidText := by
  have hsub : SIZEOF_AVB_HASHTREE_DESCRIPTOR + ((headerOf c).partition_name_len
      + (headerOf c).salt_len + (headerOf c).root_digest_len) ≤ c.length := by
    simpa [subFieldsLen] using h3
  have l1 : (c.drop SIZEOF_AVB_HASHTREE_DESCRIPTOR).length =
      c.length - SIZEOF_AVB_HASHTREE_DESCRIPTOR := List.length_drop _ _
  have l2 : ((c.drop SIZEOF_AVB_HASHTREE_DESCRIPTOR).drop
      (headerOf c).partition_name_len).length =
      c.length - SIZEOF_AVB_HASHTREE_DESCRIPTOR - (headerOf c).partition_name_len := by
    rw [List.length_drop, l1]
  have hn : (headerOf c).partition_name_len ≤
      (c.drop SIZEOF_AVB_HASHTREE_DESCRIPTOR).length := by omega
  have hs : (headerOf c).salt_len ≤ ((c.drop SIZEOF_AVB_HASHTREE_DESCRIPTOR).drop
      (headerOf c).partition_name_len).length := by omega
  have hd : (headerOf c).root_digest_len ≤ (((c.drop SIZEOF_AVB_HASHTREE_DESCRIPTOR).drop
      (headerOf c).partition_name_len).drop (headerOf c).salt_len).length := by
    rw [List.length_drop, l2]
    omega
  have hp' : cstr_from_bytes_until_nul
      (rawHashAlgorithmField (c.take SIZEOF_AVB_HASHTREE_DESCRIPTOR)) = some p := by
    simpa [hashAlgBytes] using hp
  simp only [HashtreeDescriptor.new, parse_ok_intro c h1 h2, split_slice_ok _ _ hn,
    split_slice_ok _ _ hs, split_slice_ok _ _ hd, hp', from_utf8, hpu, if_true, hnm]
  simp

theorem new_ok_elim (c : List Byte) (v : HashtreeDescriptor)
    (hok : HashtreeDescriptor.new c = .ok v) :
    SIZEOF_AVB_HASHTREE_DESCRIPTOR ≤ c.length ∧
    validatorCond (c.take SIZEOF_AVB_HASHTREE_DESCRIPTOR) ∧
    SIZEOF_AVB_HASHTREE_DESCRIPTOR + subFieldsLen c ≤ c.length ∧
    hashAlgOk c = true ∧
    utf8Valid ((c.drop SIZEOF_AVB_HASHTREE_DESCRIPTOR).take
      (headerOf c).partition_name_len) = true ∧
    v = expectedView c := by
  by_cases h1 : c.length < SIZEOF_AVB_HASHTREE_DESCRIPTOR
  · rw [new_err_short c h1] at hok
    exact absurd hok (by simp)
  push_neg at h1
  by_cases h2 : validatorCond (c.take SIZEOF_AVB_HASHTREE_DESCRIPTOR)
  case neg =>
    rw [new_err_invalid_header c h2] at hok
    exact absurd hok (by simp)
  by_cases h3 : c.length < SIZEOF_AVB_HASHTREE_DESCRIPTOR + subFieldsLen c
  · rw [new_err_size c h1 h2 h3] at hok
    exact absurd hok (by simp)
  push_neg at h3
  rcases hhp : hashAlgBytes c with _ | p
  · rw [new_err_no_nul c h1 h2 h3 hhp] at hok
    exact absurd hok (by simp)
  · cases hup : utf8Valid p with
    | false =>
      rw [new_err_alg_utf8 c h1 h2 h3 p hhp hup] at hok
      exact absurd hok (by simp)
    | true =>
      cases hnm : utf8Valid ((c.drop SIZEOF_AVB_HASHTREE_DESCRIPTOR).take
        (headerOf c).partition_name_len) with
      | false =>
        rw [new_err_name_utf8 c h1 h2 h3 p hhp hup hnm] at hok
        exact absurd hok (by simp)
      | true =>
        rw [new_ok_intro c h1 h2 h3 p hhp hup hnm] at hok
        injection hok with hv
        refine ⟨h1, h2, h3, ?_, hnm ▸ rfl, hv.symm⟩
        simp [hashAlgOk, hhp, hup]

/-- Claim C1 (amended): truncating a successfully-parsing descriptor span to
`k` bytes fails with `InvalidHeader` when `k` is below the fixed header size,
fails with `InvalidSize` when `k` is between the header size and the header
size plus the declared sub-field lengths (partition name + salt + root
digest), and still succeeds with the identical view when only trailing
padding bytes are missing (`k` at or beyond header size plus sub-field
lengths).  Parsing is total, so no input can cause a memory-safety
violation. -/
theorem truncation_behavior (c : List Byte) (v : HashtreeDescriptor) (k : Nat)
    (hok : HashtreeDescriptor.new c = .ok v) (hk : k < c.length) :
    (k < SIZEOF_AVB_HASHTREE_DESCRIPTOR →
      HashtreeDescriptor.new (c.take k) = .error .InvalidHeader) ∧
    (SIZEOF_AVB_HASHTREE_DESCRIPTOR ≤ k →
      k < SIZEOF_AVB_HASHTREE_DESCRIPTOR + subFieldsLen c →
      HashtreeDescriptor.new (c.take k) = .error .InvalidSize) ∧
    (SIZEOF_AVB_HASHTREE_DESCRIPTOR + subFieldsLen c ≤ k →
      HashtreeDescriptor.new (c.take k) = .ok v) := by
  obtain ⟨h1, h2, h3, h4, h5, h6⟩ := new_ok_elim c v hok
  have hfit : SIZEOF_AVB_HASHTREE_DESCRIPTOR + ((headerOf c).partition_name_len
      + (headerOf c).salt_len + (headerOf c).root_digest_len) ≤ c.length := by
    simpa [subFieldsLen] using h3
  have hsubf : subFieldsLen c = (headerOf c).partition_name_len
      + (headerOf c).salt_len + (headerOf c).root_digest_len := rfl
  have hlen_take : (c.take k).length = k := by
    rw [List.length_take, Nat.min_eq_left (by omega)]
  refine ⟨?_, ?_, ?_⟩
  · intro hk180
    apply new_err_short
    rw [hlen_take]
    exact hk180
  · intro hk1 hk2
    have hpre : (c.take k).take SIZEOF_AVB_HASHTREE_DESCRIPTOR =
        c.take SIZEOF_AVB_HASHTREE_DESCRIPTOR := by
      rw [List.take_take, Nat.min_eq_left hk1]
    have hhdr : headerOf (c.take k) = headerOf c := by
      unfold headerOf
      rw [hpre]
    have hsub2 : subFieldsLen (c.take k) = subFieldsLen c := by
      unfold subFieldsLen
      rw [hhdr]
    apply new_err_size
    · rw [hlen_take]
      exact hk1
    · rw [hpre]
      exact h2
    · rw [hlen_take, hsub2]
      exact hk2
  · intro hk3
    have hk1 : SIZEOF_AVB_HASHTREE_DESCRIPTOR ≤ k := by omega
    have hpre : (c.take k).take SIZEOF_AVB_HASHTREE_DESCRIPTOR =
        c.take SIZEOF_AVB_HASHTREE_DESCRIPTOR := by
      rw [List.take_take, Nat.min_eq_left hk1]
    have hhdr : headerOf (c.take k) = headerOf c := by
      unfold headerOf
      rw [hpre]
    have hsub2 : subFieldsLen (c.take k) = subFieldsLen c := by
      unfold subFieldsLen
      rw [hhdr]
    have hb : bodyOf (c.take k) =
        (bodyOf c).take (k - SIZEOF_AVB_HASHTREE_DESCRIPTOR) := by
      unfold bodyOf
      rw [List.drop_take]
    have hk3' : SIZEOF_AVB_HASHTREE_DESCRIPTOR + ((headerOf c).partition_name_len
        + (headerOf c).salt_len + (headerOf c).root_digest_len) ≤ k := by
      rw [hsubf] at hk3
      omega
    have hn_le : (headerOf c).partition_name_len ≤
        k - SIZEOF_AVB_HASHTREE_DESCRIPTOR := by omega
    have halg : hashAlgBytes (c.take k) = hashAlgBytes c := by
      unfold hashAlgBytes
      rw [hpre]
    rcases hhp : hashAlgBytes c with _ | p
    · simp [hashAlgOk, hhp] at h4
    have hup : utf8Valid p = true := by simpa [hashAlgOk, hhp] using h4
    have happ := new_ok_intro (c.take k)
      (by rw [hlen_take]; exact hk1)
      (by rw [hpre]; exact h2)
      (by rw [hlen_take, hsub2]; exact hk3)
      p (by rw [halg]; exact hhp) hup
      (by
        rw [show (c.take k).drop SIZEOF_AVB_HASHTREE_DESCRIPTOR =
            (bodyOf c).take (k - SIZEOF_AVB_HASHTREE_DESCRIPTOR) from hb, hhdr,
          List.take_take, Nat.min_eq_left hn_le]
        exact h5)
    have hexp : expectedView (c.take k) = expectedView c := by
      have ename : ((bodyOf c).take (k - SIZEOF_AVB_HASHTREE_DESCRIPTOR)).take
          (headerOf c).partition_name_len =
          (bodyOf c).take (headerOf c).partition_name_len := by
        rw [List.take_take, Nat.min_eq_left hn_le]
      have esalt : (((bodyOf c).take (k - SIZEOF_AVB_HASHTREE_DESCRIPTOR)).drop
          (headerOf c).partition_name_len).take (headerOf c).salt_len =
          ((bodyOf c).drop (headerOf c).partition_name_len).take
            (headerOf c).salt_len := by
        rw [List.drop_take, List.take_take, Nat.min_eq_left (by omega)]
      have edig : ((((bodyOf c).take (k - SIZEOF_AVB_HASHTREE_DESCRIPTOR)).drop
          (headerOf c).partition_name_len).drop (headerOf c).salt_len).take
          (headerOf c).root_digest_len =
          (((bodyOf c).drop (headerOf c).partition_name_len).drop
            (headerOf c).salt_len).take (headerOf c).root_digest_len := by
        rw [List.drop_take, List.drop_take, List.take_take,
          Nat.min_eq_left (by omega)]
      unfold expectedView
      rw [hhdr, hb, halg, ename, esalt, edig]
    rw [hexp] at happ
    rw [h6]
    exact happ

/-- Claim C1 counterexample: the claim as stated requires `InvalidSize` for
every `k` between the header size and the full length, but truncating the
240-byte test vector to `k = 239` (header size 180 ≤ 239 < 240) removes only
a padding byte and parsing still succeeds. -/
theorem truncation_claim_counterexample :
    SIZEOF_AVB_HASHTREE_DESCRIPTOR ≤ 239 ∧
    239 < TEST_HASHTREE_DESCRIPTOR.length ∧
    HashtreeDescriptor.new (TEST_HASHTREE_DESCRIPTOR.take 239) =
      .ok TEST_HASHTREE_VIEW :=
  ⟨by decide, by decide, by decide⟩

/-- Claim C1 witness: the amended truncation behavior evaluated on the test
vector at `k = 100` (below header size), `k = 200` (sub-fields cut) and
`k = 238` (only padding cut). -/
theorem truncation_behavior_witness :
    HashtreeDescriptor.new (TEST_HASHTREE_DESCRIPTOR.take 100) =
      .error .InvalidHeader ∧
    HashtreeDescriptor.new (TEST_HASHTREE_DESCRIPTOR.take 200) =
      .error .InvalidSize ∧
    HashtreeDescriptor.new (TEST_HASHTREE_DESCRIPTOR.take 238) =
      .ok TEST_HASHTREE_VIEW :=
  ⟨(truncation_behavior TEST_HASHTREE_DESCRIPTOR TEST_HASHTREE_VIEW 100
      (by decide) (by decide)).1 (by decide),
   (truncation_behavior TEST_HASHTREE_DESCRIPTOR TEST_HASHTREE_VIEW 200
      (by decide) (by decide)).2.1 (by decide) (by decide),
   (truncation_behavior TEST_HASHTREE_DESCRIPTOR TEST_HASHTREE_VIEW 238
      (by decide) (by decide)).2.2 (by decide)⟩

/-- Claim C2 counterexample: the test vector parses, but with image size
`0x4000` (neither `0xE0` nor `0xE0` blocks of `0x1000` bytes), tree offset
`0x4000` (not `0x40`), tree size `0x1000` (not `0x40`), a 20-byte salt (not
0-length) and a 20-byte root digest (not 32 bytes), refuting the claimed
literal values. -/
theorem test_vector_claimed_values_counterexample :
    Except.map (fun v => (v.image_size, v.tree_offset, v.tree_size,
        v.salt.length, v.root_digest.length))
      (HashtreeDescriptor.new TEST_HASHTREE_DESCRIPTOR) =
      .ok (0x4000, 0x4000, 0x1000, 20, 20) ∧
    ((0x4000 : Nat) ≠ 0xE0 ∧ (0x4000 : Nat) ≠ 0xE0 * 0x1000 ∧
      (0x4000 : Nat) ≠ 0x40 ∧ (0x1000 : Nat) ≠ 0x40 ∧
      (20 : Nat) ≠ 0 ∧ (20 : Nat) ≠ 32) :=
  ⟨by decide, by decide⟩

/-- Claim C2 (amended): the test vector `TEST_HASHTREE_DESCRIPTOR` parses
successfully via `HashtreeDescriptor::new`, and every field of the returned
view matches the wire bytes: dm-verity version 1, image size `0x4000`, tree
offset `0x4000`, tree size `0x1000`, data and hash block size `0x1000` each,
0 FEC roots, FEC offset and size 0, hash algorithm `sha1`, flags 0,
partition name `test_part_hashtree`, a 20-byte salt and a 20-byte root
digest. -/
theorem test_vector_parses_with_actual_values :
    HashtreeDescriptor.new TEST_HASHTREE_DESCRIPTOR = .ok TEST_HASHTREE_VIEW := by
  decide

/-- Claim C3: for every input accepted by the generic parser, `new` splits
the body in the fixed order partition name (length `partition_name_len`),
then salt (`salt_len`), then root digest (`root_digest_len`), and a split
failure is propagated as exactly the `InvalidSize` error: if the body is
shorter than the three declared lengths the result is `InvalidSize`
(regardless of any text-field contents); if it is not, the result is never
`InvalidSize`; and on success the three fields are the consecutive body
subranges in that order. -/
theorem body_split_order_and_invalid_size (c : List Byte) (d : ParsedDescriptor)
    (hpd : parse_descriptor c = .ok d) :
    (d.body.length <
        d.header.partition_name_len + d.header.salt_len + d.header.root_digest_len →
      HashtreeDescriptor.new c = .error .InvalidSize) ∧
    (∀ v, HashtreeDescriptor.new c = .ok v →
      v.partition_name = d.body.take d.header.partition_name_len ∧
      v.salt = (d.body.drop d.header.partition_name_len).take d.header.salt_len ∧
      v.root_digest = ((d.body.drop d.header.partition_name_len).drop
        d.header.salt_len).take d.header.root_digest_len) ∧
    (d.header.partition_name_len + d.header.salt_len + d.header.root_digest_len ≤
        d.body.length →
      HashtreeDescriptor.new c ≠ .error .InvalidSize) := by
  obtain ⟨h1, h2, hd⟩ := parse_ok_elim c d hpd
  subst hd
  dsimp only
  refine ⟨?_, ?_, ?_⟩
  · intro hshort
    apply new_err_size c h1 h2
    rw [List.length_drop] at hshort
    unfold subFieldsLen
    omega
  · intro v hok
    obtain ⟨_, _, _, _, _, h6⟩ := new_ok_elim c v hok
    subst h6
    exact ⟨rfl, rfl, rfl⟩
  · intro hfit hcontra
    rw [List.length_drop] at hfit
    have h3 : SIZEOF_AVB_HASHTREE_DESCRIPTOR + subFieldsLen c ≤ c.length := by
      unfold subFieldsLen
      omega
    rcases hhp : hashAlgBytes c with _ | p
    · rw [new_err_no_nul c h1 h2 h3 hhp] at hcontra
      exact absurd hcontra (by simp)
    · cases hup : utf8Valid p with
      | false =>
        rw [new_err_alg_utf8 c h1 h2 h3 p hhp hup] at hcontra
        exact absurd hcontra (by simp)
      | true =>
        cases hnm : utf8Valid ((c.drop SIZEOF_AVB_HASHTREE_DESCRIPTOR).take
          (headerOf c).partition_name_len) with
        | false =>
          rw [new_err_name_utf8 c h1 h2 h3 p hhp hup hnm] at hcontra
          exact absurd hcontra (by simp)
        | true =>
          rw [new_ok_intro c h1 h2 h3 p hhp hup hnm] at hcontra
          exact absurd hcontra (by simp)

/-- Claim C3 witness: truncating the test vector to 220 bytes leaves a
40-byte body, shorter than the 58 declared sub-field bytes, so `new` fails
with `InvalidSize`; on the full vector the partition name is the front body
subrange. -/
theorem body_split_witness :
    HashtreeDescriptor.new (TEST_HASHTREE_DESCRIPTOR.take 220) =
      .error .InvalidSize ∧
    TEST_HASHTREE_VIEW.partition_name =
      (parsedOf TEST_HASHTREE_DESCRIPTOR).body.take
        (parsedOf TEST_HASHTREE_DESCRIPTOR).header.partition_name_len :=
  ⟨(body_split_order_and_invalid_size (TEST_HASHTREE_DESCRIPTOR.take 220)
      (parsedOf (TEST_HASHTREE_DESCRIPTOR.take 220)) (by decide)).1 (by decide),
   ((body_split_order_and_invalid_size TEST_HASHTREE_DESCRIPTOR
      (parsedOf TEST_HASHTREE_DESCRIPTOR) (by decide)).2.1 TEST_HASHTREE_VIEW
      (by decide)).1⟩

/-- Claim C4: `new` reads the hash-algorithm name as a nul-terminated UTF-8
string from the raw, pre-byteswap header snapshot (`d.raw_header`, the
original first 180 bytes of the input): with the generic parse and the body
splits succeeding, no nul terminator within the fixed 32-byte field yields
the `InvalidText` error, invalid UTF-8 before the nul yields `InvalidText`,
and on success the returned `hash_algorithm` is exactly the raw snapshot
field's bytes before the first nul. -/
theorem hash_algorithm_decoding (c : List Byte) (d : ParsedDescriptor)
    (hpd : parse_descriptor c = .ok d)
    (hfit : d.header.partition_name_len + d.header.salt_len + d.header.root_digest_len ≤
      d.body.length) :
    (cstr_from_bytes_until_nul (rawHashAlgorithmField d.raw_header) = none →
      HashtreeDescriptor.new c = .error .InvalidText) ∧
    (∀ p, cstr_from_bytes_until_nul (rawHashAlgorithmField d.raw_header) = some p →
      utf8Valid p = false → HashtreeDescriptor.new c = .error .InvalidText) ∧
    (∀ v, HashtreeDescriptor.new c = .ok v →
      v.hash_algorithm =
        (rawHashAlgorithmField (c.take SIZEOF_AVB_HASHTREE_DESCRIPTOR)).takeWhile
          (fun b => b != 0)) := by
  obtain ⟨h1, h2, hd⟩ := parse_ok_elim c d hpd
  subst hd
  dsimp only at hfit ⊢
  rw [List.length_drop] at hfit
  have h3 : SIZEOF_AVB_HASHTREE_DESCRIPTOR + subFieldsLen c ≤ c.length := by
    unfold subFieldsLen
    omega
  refine ⟨?_, ?_, ?_⟩
  · intro hnul
    exact new_err_no_nul c h1 h2 h3 (by simpa [hashAlgBytes] using hnul)
  · intro p hp hpu
    exact new_err_alg_utf8 c h1 h2 h3 p (by simpa [hashAlgBytes] using hp) hpu
  · intro v hok
    obtain ⟨_, _, _, h4, _, h6⟩ := new_ok_elim c v hok
    subst h6
    rcases hhp : hashAlgBytes c with _ | p
    · simp [hashAlgOk, hhp] at h4
    · have hpw := (cstr_some_elim _ p (by simpa [hashAlgBytes] using hhp)).1
      simp [expectedView, hhp, hpw]

/-- Claim C4 witness: a hash-algorithm field filled with 32 non-nul bytes
fails with `InvalidText`; a `0xFF` byte before the nul fails with
`InvalidText`; on the test vector the returned name `sha1` is the raw field's
nul-free front. -/
theorem hash_algorithm_decoding_witness :
    HashtreeDescriptor.new TEST_NO_NUL_ALG_DESCRIPTOR = .error .InvalidText ∧
    HashtreeDescriptor.new TEST_BAD_ALG_UTF8_DESCRIPTOR = .error .InvalidText ∧
    TEST_HASHTREE_VIEW.hash_algorithm =
      (rawHashAlgorithmField
        (TEST_HASHTREE_DESCRIPTOR.take SIZEOF_AVB_HASHTREE_DESCRIPTOR)).takeWhile
        (fun b => b != 0) :=
  ⟨(hash_algorithm_decoding TEST_NO_NUL_ALG_DESCRIPTOR
      (parsedOf TEST_NO_NUL_ALG_DESCRIPTOR) (by decide) (by decide)).1 (by decide),
   (hash_algorithm_decoding TEST_BAD_ALG_UTF8_DESCRIPTOR
      (parsedOf TEST_BAD_ALG_UTF8_DESCRIPTOR) (by decide) (by decide)).2.1
      [0xFF, 0x68, 0x61, 0x31] (by decide) (by decide),
   (hash_algorithm_decoding TEST_HASHTREE_DESCRIPTOR
      (parsedOf TEST_HASHTREE_DESCRIPTOR) (by decide) (by decide)).2.2
      TEST_HASHTREE_VIEW (by decide)⟩

/-- Claim C5: with the parse, the splits and the hash-algorithm decoding all
succeeding, `new` decodes the partition-name body sub-field as UTF-8 and
fails with the `InvalidText` error kind when it is not valid UTF-8, while on
success the salt and root digest are returned as the raw body byte
subranges, untransformed and with no text validation applied to them. -/
theorem partition_name_decoding (c : List Byte) (d : ParsedDescriptor)
    (hpd : parse_descriptor c = .ok d)
    (hfit : d.header.partition_name_len + d.header.salt_len + d.header.root_digest_len ≤
      d.body.length)
    (p : List Byte)
    (hp : cstr_from_bytes_until_nul (rawHashAlgorithmField d.raw_header) = some p)
    (hpu : utf8Valid p = true) :
    (utf8Valid (d.body.take d.header.partition_name_len) = false →
      HashtreeDescriptor.new c = .error .InvalidText) ∧
    (∀ v, HashtreeDescriptor.new c = .ok v →
      v.salt = (d.body.drop d.header.partition_name_len).take d.header.salt_len ∧
      v.root_digest = ((d.body.drop d.header.partition_name_len).drop
        d.header.salt_len).take d.header.root_digest_len) := by
  obtain ⟨h1, h2, hd⟩ := parse_ok_elim c d hpd
  subst hd
  dsimp only at hfit hp ⊢
  rw [List.length_drop] at hfit
  have h3 : SIZEOF_AVB_HASHTREE_DESCRIPTOR + subFieldsLen c ≤ c.length := by
    unfold subFieldsLen
    omega
  constructor
  · intro hnm
    exact new_err_name_utf8 c h1 h2 h3 p (by simpa [hashAlgBytes] using hp) hpu hnm
  · intro v hok
    obtain ⟨_, _, _, _, _, h6⟩ := new_ok_elim c v hok
    subst h6
    exact ⟨rfl, rfl⟩

/-- Claim C5 witness: a `0xFF` byte inside the partition name makes `new`
fail with `InvalidText`; on the test vector the salt is the raw body
subrange after the partition name. -/
theorem partition_name_decoding_witness :
    HashtreeDescriptor.new TEST_BAD_NAME_UTF8_DESCRIPTOR = .error .InvalidText ∧
    TEST_HASHTREE_VIEW.salt =
      ((parsedOf TEST_HASHTREE_DESCRIPTOR).body.drop
        (parsedOf TEST_HASHTREE_DESCRIPTOR).header.partition_name_len).take
        (parsedOf TEST_HASHTREE_DESCRIPTOR).header.salt_len :=
  ⟨(partition_name_decoding TEST_BAD_NAME_UTF8_DESCRIPTOR
      (parsedOf TEST_BAD_NAME_UTF8_DESCRIPTOR) (by decide) (by decide)
      [0x73, 0x68, 0x61, 0x31] (by decide) (by decide)).1 (by decide),
   ((partition_name_decoding TEST_HASHTREE_DESCRIPTOR
      (parsedOf TEST_HASHTREE_DESCRIPTOR) (by decide) (by decide)
      [0x73, 0x68, 0x61, 0x31] (by decide) (by decide)).2 TEST_HASHTREE_VIEW
      (by decide)).1⟩

/-- Claim C6: padding tolerance — whenever `HashtreeDescriptor::new` parses a
byte span successfully, appending any extra padding bytes to the span yields
the very same parsed view, field by field. -/
theorem padding_tolerance (c extra : List Byte) (v : HashtreeDescriptor)
    (hok : HashtreeDescriptor.new c = .ok v) :
    HashtreeDescriptor.new (c ++ extra) = .ok v := by
  obtain ⟨h1, h2, h3, h4, h5, h6⟩ := new_ok_elim c v hok
  have hfit : SIZEOF_AVB_HASHTREE_DESCRIPTOR + ((headerOf c).partition_name_len
      + (headerOf c).salt_len + (headerOf c).root_digest_len) ≤ c.length := by
    simpa [subFieldsLen] using h3
  have hpre : (c ++ extra).take SIZEOF_AVB_HASHTREE_DESCRIPTOR =
      c.take SIZEOF_AVB_HASHTREE_DESCRIPTOR := List.take_append_of_le_length h1
  have hhdr : headerOf (c ++ extra) = headerOf c := by
    unfold headerOf
    rw [hpre]
  have hbody : bodyOf (c ++ extra) = bodyOf c ++ extra := by
    unfold bodyOf
    exact List.drop_append_of_le_length h1
  have lb : (bodyOf c).length = c.length - SIZEOF_AVB_HASHTREE_DESCRIPTOR := by
    simp [bodyOf]
  have hn_le : (headerOf c).partition_name_len ≤ (bodyOf c).length := by omega
  have hs_le : (headerOf c).salt_len ≤
      ((bodyOf c).drop (headerOf c).partition_name_len).length := by
    rw [List.length_drop]
    omega
  have hd_le : (headerOf c).root_digest_len ≤
      (((bodyOf c).drop (headerOf c).partition_name_len).drop
        (headerOf c).salt_len).length := by
    rw [List.length_drop, List.length_drop]
    omega
  rcases hhp : hashAlgBytes c with _ | p
  · simp [hashAlgOk, hhp] at h4
  have hup : utf8Valid p = true := by simpa [hashAlgOk, hhp] using h4
  have halg : hashAlgBytes (c ++ extra) = hashAlgBytes c := by
    unfold hashAlgBytes
    rw [hpre]
  have hsub : subFieldsLen (c ++ extra) = subFieldsLen c := by
    unfold subFieldsLen
    rw [hhdr]
  have happ := new_ok_intro (c ++ extra)
    (by rw [List.length_append]; omega)
    (by rw [hpre]; exact h2)
    (by rw [hsub, List.length_append]; omega)
    p (by rw [halg]; exact hhp) hup
    (by
      rw [show (c ++ extra).drop SIZEOF_AVB_HASHTREE_DESCRIPTOR = bodyOf c ++ extra
          from hbody, hhdr, List.take_append_of_le_length hn_le]
      exact h5)
  have hexp : expectedView (c ++ extra) = expectedView c := by
    have e2 : (bodyOf c ++ extra).drop (headerOf c).partition_name_len =
        (bodyOf c).drop (headerOf c).partition_name_len ++ extra :=
      List.drop_append_of_le_length hn_le
    have e4 : ((bodyOf c).drop (headerOf c).partition_name_len ++ extra).drop
        (headerOf c).salt_len =
        ((bodyOf c).drop (headerOf c).partition_name_len).drop
          (headerOf c).salt_len ++ extra :=
      List.drop_append_of_le_length hs_le
    unfold expectedView
    rw [hhdr, hbody, halg, List.take_append_of_le_length hn_le, e2,
      List.take_append_of_le_length hs_le, e4, List.take_append_of_le_length hd_le]
  rw [hexp] at happ
  rw [h6]
  exact happ

/-- Claim C6 witness: appending three arbitrary bytes to the test vector
leaves the parsed view unchanged. -/
theorem padding_tolerance_witness :
    HashtreeDescriptor.new (TEST_HASHTREE_DESCRIPTOR ++ [0xAA, 0xBB, 0xCC]) =
      .ok TEST_HASHTREE_VIEW :=
  padding_tolerance TEST_HASHTREE_DESCRIPTOR [0xAA, 0xBB, 0xCC]
    TEST_HASHTREE_VIEW (by decide)

/-- Claim C7: `HashtreeDescriptor::new` is a pure function of its input span:
parsing the same bytes twice yields structurally equal results (equal views
on success, equal error kinds on failure).  In this embedding `new` is a
total function of the input byte list alone, so no I/O, randomness or hidden
state can influence the outcome, and the equality holds definitionally. -/
theorem new_deterministic : ∀ contents : List Byte,
    HashtreeDescriptor.new contents = HashtreeDescriptor.new contents :=
  fun _ => rfl

/-- Claim C8: zero-copy contiguity — whenever `new` succeeds, the returned
`partition_name`, `salt` and `root_digest` are exactly the three consecutive,
non-overlapping subranges of the body starting at body offset 0, with lengths
equal to the validated header's `partition_name_len`, `salt_len` and
`root_digest_len`: `partition_name = body[0..n]`, `salt = body[n..n+s]`,
`root_digest = body[n+s..n+s+d]`; no byte is copied or transformed. -/
theorem zero_copy_subranges (c : List Byte) (v : HashtreeDescriptor)
    (hok : HashtreeDescriptor.new c = .ok v) :
    v.partition_name = (bodyOf c).take (headerOf c).partition_name_len ∧
    v.salt = ((bodyOf c).drop (headerOf c).partition_name_len).take
      (headerOf c).salt_len ∧
    v.root_digest = (((bodyOf c).drop (headerOf c).partition_name_len).drop
      (headerOf c).salt_len).take (headerOf c).root_digest_len ∧
    v.partition_name.length = (headerOf c).partition_name_len ∧
    v.salt.length = (headerOf c).salt_len ∧
    v.root_digest.length = (headerOf c).root_digest_len := by
  obtain ⟨h1, h2, h3, _, _, h6⟩ := new_ok_elim c v hok
  have hfit : SIZEOF_AVB_HASHTREE_DESCRIPTOR + ((headerOf c).partition_name_len
      + (headerOf c).salt_len + (headerOf c).root_digest_len) ≤ c.length := by
    simpa [subFieldsLen] using h3
  have lb : (bodyOf c).length = c.length - SIZEOF_AVB_HASHTREE_DESCRIPTOR := by
    simp [bodyOf]
  subst h6
  refine ⟨rfl, rfl, rfl, ?_, ?_, ?_⟩
  · simp only [expectedView]
    rw [List.length_take, lb, Nat.min_eq_left (by omega)]
  · simp only [expectedView]
    rw [List.length_take, List.length_drop, lb, Nat.min_eq_left (by omega)]
  · simp only [expectedView]
    rw [List.length_take, List.length_drop, List.length_drop, lb,
      Nat.min_eq_left (by omega)]

/-- Claim C8 witness: on the test vector the partition name is the front body
subrange and the salt length equals the header's `salt_len`. -/
theorem zero_copy_subranges_witness :
    TEST_HASHTREE_VIEW.partition_name =
      (bodyOf TEST_HASHTREE_DESCRIPTOR).take
        (headerOf TEST_HASHTREE_DESCRIPTOR).partition_name_len ∧
    TEST_HASHTREE_VIEW.salt.length =
      (headerOf TEST_HASHTREE_DESCRIPTOR).salt_len :=
  ⟨(zero_copy_subranges TEST_HASHTREE_DESCRIPTOR TEST_HASHTREE_VIEW (by decide)).1,
   (zero_copy_subranges TEST_HASHTREE_DESCRIPTOR TEST_HASHTREE_VIEW
      (by decide)).2.2.2.2.1⟩

/-- Claim C9: hash-algorithm string invariant — whenever `new` succeeds, the
returned `hash_algorithm` contains no nul byte, its length is strictly below
the fixed 32-byte field width, and its bytes equal exactly the raw header's
`hash_algorithm` field bytes up to (excluding) the first nul. -/
theorem hash_algorithm_invariant (c : List Byte) (v : HashtreeDescriptor)
    (hok : HashtreeDescriptor.new c = .ok v) :
    0 ∉ v.hash_algorithm ∧
    v.hash_algorithm.length < 32 ∧
    v.hash_algorithm =
      (rawHashAlgorithmField (c.take SIZEOF_AVB_HASHTREE_DESCRIPTOR)).takeWhile
        (fun b => b != 0) := by
  obtain ⟨h1, _, _, h4, _, h6⟩ := new_ok_elim c v hok
  subst h6
  rcases hhp : hashAlgBytes c with _ | p
  · simp [hashAlgOk, hhp] at h4
  · have hc : cstr_from_bytes_until_nul
        (rawHashAlgorithmField (c.take SIZEOF_AVB_HASHTREE_DESCRIPTOR)) = some p := by
      simpa [hashAlgBytes] using hhp
    obtain ⟨hw, hmem, hlen⟩ := cstr_some_elim _ p hc
    have hfield : (rawHashAlgorithmField (c.take SIZEOF_AVB_HASHTREE_DESCRIPTOR)).length
        = 32 := by
      have h1' : (180 : Nat) ≤ c.length := h1
      simp only [rawHashAlgorithmField, SIZEOF_AVB_HASHTREE_DESCRIPTOR]
      rw [List.length_take, List.length_drop, List.length_take]
      omega
    refine ⟨?_, ?_, ?_⟩
    · simpa [expectedView, hhp] using hmem
    · have : p.length < 32 := hfield ▸ hlen
      simpa [expectedView, hhp] using this
    · simpa [expectedView, hhp] using hw

/-- Claim C9 witness: on the test vector the returned `sha1` bytes contain no
nul and are shorter than 32 bytes. -/
theorem hash_algorithm_invariant_witness :
    0 ∉ TEST_HASHTREE_VIEW.hash_algorithm ∧
    TEST_HASHTREE_VIEW.hash_algorithm.length < 32 :=
  ⟨(hash_algorithm_invariant TEST_HASHTREE_DESCRIPTOR TEST_HASHTREE_VIEW
      (by decide)).1,
   (hash_algorithm_invariant TEST_HASHTREE_DESCRIPTOR TEST_HASHTREE_VIEW
      (by decide)).2.1⟩

/-- Claim C10: the partition name is length-delimited, not nul-terminated —
on success its byte length equals the validated header's
`partition_name_len` exactly, and a partition name containing an embedded
nul byte (valid UTF-8) parses successfully, in contrast to the
hash-algorithm field which stops at the first nul and fails without one. -/
theorem partition_name_length_delimited :
    (∀ (c : List Byte) (v : HashtreeDescriptor), HashtreeDescriptor.new c = .ok v →
      v.partition_name.length = (headerOf c).partition_name_len) ∧
    (∃ v, HashtreeDescriptor.new TEST_EMBEDDED_NUL_DESCRIPTOR = .ok v ∧
      0 ∈ v.partition_name ∧ v.partition_name.length = 18) := by
  constructor
  · intro c v hok
    obtain ⟨h1, h2, h3, _, _, h6⟩ := new_ok_elim c v hok
    have hfit : SIZEOF_AVB_HASHTREE_DESCRIPTOR + ((headerOf c).partition_name_len
        + (headerOf c).salt_len + (headerOf c).root_digest_len) ≤ c.length := by
      simpa [subFieldsLen] using h3
    subst h6
    have lb : (bodyOf c).length = c.length - SIZEOF_AVB_HASHTREE_DESCRIPTOR := by
      simp [bodyOf]
    simp only [expectedView]
    rw [List.length_take, lb, Nat.min_eq_left (by omega)]
  · refine ⟨{ TEST_HASHTREE_VIEW with
        partition_name := [0x74, 0x65, 0x73, 0x74, 0x5F, 0x70, 0x61, 0x72, 0x74, 0x00,
                           0x68, 0x61, 0x73, 0x68, 0x74, 0x72, 0x65, 0x65] }, ?_, ?_, ?_⟩
    · decide
    · decide
    · decide

/-- Claim C10 witness: on the test vector the parsed partition name has
exactly the header's declared length. -/
theorem partition_name_length_delimited_witness :
    TEST_HASHTREE_VIEW.partition_name.length =
      (headerOf TEST_HASHTREE_DESCRIPTOR).partition_name_len :=
  partition_name_length_delimited.1 TEST_HASHTREE_DESCRIPTOR TEST_HASHTREE_VIEW
    (by decide)
